import Mathlib

/-!
Shallow embedding of the gym member-management program (src/GYM/gym.py).

The program keeps three flat tables (members, attendance, deleted members),
identifies members by a linear best-match scan over per-member face-verifier
outputs, and records entry/exit attendance.  Pure fragments of the Python code
are translated into executable Lean definitions; the verifier itself is a
black box, so the scans are parametrised by the fixed sequence of
(matched, distance) outputs it produced for each member.  Distances are
modelled as rationals.
-/

/-- A member record: one row of members.csv
(columns ID, Name, Email, Mobile, Membership, Fee, ImagePath). -/
structure Member where
  id : Nat
  name : String
  email : String
  mobile : String
  membership : String
  fee : Nat
  imagePath : String
  deriving DecidableEq, Repr

/-- One output of try_verify_faces for one candidate: the verifier's boolean
verdict and its distance score (gym.py line 64 returns
(result["verified"], result.get("distance", 1.0))). -/
structure VerifyResult where
  matched : Bool
  dist : ℚ
  deriving DecidableEq, Repr

/-- One row of attendance.csv
(columns ID, Name, Date, EntryTime, ExitTime, Status).  The ID is stored as a
string, as the code writes str(matched_row["ID"]) and compares with
astype(str); an empty ExitTime string models the open (not yet exited)
state. -/
structure AttRecord where
  id : String
  name : String
  date : String
  entryTime : String
  exitTime : String
  status : String
  deriving DecidableEq, Repr

/-- One iteration of the scan loop in gym.py lines 182-186 / 231-235:
`if match and dist < best_distance: matched_row, best_distance = row, dist`. -/
def scanStep (acc : Option Member × ℚ) (p : Member × VerifyResult) :
    Option Member × ℚ :=
  if p.2.matched = true ∧ p.2.dist < acc.2 then (some p.1, p.2.dist) else acc

/-- The whole best-match scan of gym.py lines 180-187 (and 229-236): fold the
loop body over the members paired with their verifier outputs, starting from
`matched_row, best_distance = None, 1.0`. -/
def bestMatchScan (l : List (Member × VerifyResult)) : Option Member × ℚ :=
  l.foldl scanStep (none, 1)

/-- The distances of the candidates whose verifier verdict was `matched`. -/
def matchedDists (l : List (Member × VerifyResult)) : List ℚ :=
  (l.filter (fun p => p.2.matched)).map (fun p => p.2.dist)

/-- Minimum of a list of rationals seeded with an initial bound. -/
def minFrom (d : ℚ) (l : List ℚ) : ℚ :=
  l.foldl min d

/-- Selection rule as the specification words it: the first member in
enumeration order whose distance is the minimum among all candidates with
`matched = true` (ties keep the earlier candidate); no candidate at all when
nothing matched.  Stated from the spec text for comparison with
`bestMatchScan`, which is translated from the code. -/
def specFirstMin (l : List (Member × VerifyResult)) : Option Member :=
  match matchedDists l with
  | [] => none
  | d :: ds =>
      (l.find? (fun p => p.2.matched && decide (p.2.dist = minFrom d ds))).map
        Prod.fst

/-- Outcome messages of the Attendance - Entry branch (gym.py lines 167-211). -/
inductive EntryMsg where
  | noMembers
  | noMatch
  | alreadyMarked
  | marked (name : String)
  deriving DecidableEq, Repr

/-- The Attendance - Entry branch (gym.py lines 177-211) on the decoded
attendance table: empty-members guard, best-match scan, duplicate-day check,
append of the new Present record.  The failure branches do not call
save_attendance, so they return the input table unchanged. -/
def mark_entry (l : List (Member × VerifyResult)) (att : List AttRecord)
    (today now : String) : List AttRecord × EntryMsg :=
  if l.isEmpty then (att, .noMembers)
  else
    match (bestMatchScan l).1 with
    | none => (att, .noMatch)
    | some m =>
        let idstr := toString m.id
        if (att.filter (fun r => r.id == idstr && r.date == today)).isEmpty then
          (att ++ [⟨idstr, m.name, today, now, "", "Present"⟩], .marked m.name)
        else (att, .alreadyMarked)

/-- The open-record predicate of gym.py lines 244-245: same member id, today's
date, and an empty exit time. -/
def isOpenFor (idstr today : String) (r : AttRecord) : Bool :=
  r.id == idstr && r.date == today && r.exitTime == ""

/-- The update of gym.py lines 250-252: locate the first record satisfying
`isOpenFor` (open_rows.index[0]) and set its ExitTime and Status, leaving
every other record untouched; `none` when no open record exists. -/
def closeFirstOpen (idstr today now : String) :
    List AttRecord → Option (List AttRecord)
  | [] => none
  | r :: rs =>
      if isOpenFor idstr today r then
        some ({ r with exitTime := now, status := "Exited" } :: rs)
      else (closeFirstOpen idstr today now rs).map (fun rs2 => r :: rs2)

/-- Outcome messages of the Attendance - Exit branch (gym.py lines 216-256). -/
inductive ExitMsg where
  | noMembers
  | noMatch
  | noOpenEntry
  | exited (name : String)
  deriving DecidableEq, Repr

/-- The Attendance - Exit branch (gym.py lines 226-256) on the decoded
attendance table: empty-members guard, best-match scan, then close the first
open record for (member, today); failure branches leave the table unchanged. -/
def mark_exit (l : List (Member × VerifyResult)) (att : List AttRecord)
    (today now : String) : List AttRecord × ExitMsg :=
  if l.isEmpty then (att, .noMembers)
  else
    match (bestMatchScan l).1 with
    | none => (att, .noMatch)
    | some m =>
        match closeFirstOpen (toString m.id) today now att with
        | none => (att, .noOpenEntry)
        | some att2 => (att2, .exited m.name)

/-- The registration form input (gym.py lines 90-95): the photo is `none`
when no image was captured. -/
structure RegInput where
  name : String
  email : String
  mobile : String
  membership : String
  fee : Nat
  photo : Option String
  deriving DecidableEq, Repr

/-- The presence check of gym.py line 98,
`all([name, email, mobile, membership, photo])` under Python truthiness: the
four strings non-empty and a photo captured.  The fee is not consulted. -/
def registerValid (i : RegInput) : Bool :=
  !(i.name == "") && !(i.email == "") && !(i.mobile == "") &&
    !(i.membership == "") && i.photo.isSome

/-- gym.py line 102: `new_id = len(members) + 1 if not members.empty else 1`. -/
def new_id (members : List Member) : Nat :=
  if members.isEmpty then 1 else members.length + 1

/-- gym.py line 103: the stored photo path derived from id and name. -/
def image_path (nid : Nat) (name : String) : String :=
  "member_images/" ++ toString nid ++ "_" ++ name.replace " " "_" ++ ".jpg"

/-- The Register Member branch (gym.py lines 97-117): validation, id
assignment, append of the new row; `none` result id on validation failure
(no write). -/
def register_member (members : List Member) (i : RegInput) :
    List Member × Option Nat :=
  if registerValid i = false then (members, none)
  else
    (members ++
        [⟨new_id members, i.name, i.email, i.mobile, i.membership, i.fee,
          image_path (new_id members) i.name⟩],
      some (new_id members))

/-- A sequence of registrations starting from an empty members table, with no
intervening deletions. -/
def register_seq (inputs : List RegInput) : List Member :=
  inputs.foldl (fun ms i => (register_member ms i).1) []

/-- The Delete Member branch (gym.py lines 151-158) on the decoded members
and archive tables: rows with the id are removed from members and, when any
were removed, appended to the deleted-members archive.  This is the
decoded-table view, valid only when the read of deleted_members.csv at line
158 succeeds; the raw file-level behaviour of that branch, including the
unguarded read's failure, is `delete_member_file` below. -/
def delete_member (members archive : List Member) (did : Nat) :
    List Member × List Member :=
  let delm := members.filter (fun m => m.id == did)
  let kept := members.filter (fun m => !(m.id == did))
  (kept, if delm.isEmpty then archive else archive ++ delm)

/-- The three decoded tables the program persists. -/
structure TableStore where
  members : List Member
  attendance : List AttRecord
  deleted : List Member
  deriving Repr

/-- The Delete Member branch at the store level: it rewrites members.csv and
deleted_members.csv (gym.py lines 154 and 158) and touches no other file. -/
def delete_member_store (s : TableStore) (did : Nat) : TableStore :=
  { members := (delete_member s.members s.deleted did).1,
    attendance := s.attendance,
    deleted := (delete_member s.members s.deleted did).2 }

/-- A persisted CSV file as a header row (column names) plus data rows.
`pd.DataFrame().to_csv(f, index=False)` writes a frame with no columns and no
rows. -/
structure Frame where
  cols : List String
  rows : List (List String)
  deriving DecidableEq, Repr

/-- Canonical members-table columns (gym.py line 47). -/
def membersCols : List String :=
  ["ID", "Name", "Email", "Mobile", "Membership", "Fee", "ImagePath"]

/-- Canonical attendance-table columns (gym.py line 56). -/
def attendanceCols : List String :=
  ["ID", "Name", "Date", "EntryTime", "ExitTime", "Status"]

/-- pd.read_csv on a stored frame: a file with no columns raises
EmptyDataError, modelled as an error value. -/
def readCsv (f : Frame) : Except String Frame :=
  if f.cols.isEmpty then .error "EmptyDataError" else .ok f

/-- load_members (gym.py lines 43-47): read members.csv, degrading to an empty
frame with the canonical columns when the read raises. -/
def load_members (f : Frame) : Frame :=
  match readCsv f with
  | .ok t => t
  | .error _ => ⟨membersCols, []⟩

/-- load_attendance (gym.py lines 52-56): read attendance.csv, degrading to an
empty frame with the canonical columns when the read raises. -/
def load_attendance (f : Frame) : Frame :=
  match readCsv f with
  | .ok t => t
  | .error _ => ⟨attendanceCols, []⟩

/-- The persisted files and the reference-photo directory. -/
structure FileSystem where
  membersFile : Frame
  attendanceFile : Frame
  deletedFile : Frame
  memberImages : List String
  deriving DecidableEq, Repr

/-- The Reset DB branch (gym.py lines 287-291): each of the three CSV files is
overwritten with `pd.DataFrame().to_csv(f, index=False)` — a frame with no
columns — and every stored photo is removed. -/
def resetDB (_fs : FileSystem) : FileSystem :=
  { membersFile := ⟨[], []⟩,
    attendanceFile := ⟨[], []⟩,
    deletedFile := ⟨[], []⟩,
    memberImages := [] }

/-- One member record rendered as a CSV data row, in the column order of
deleted_members.csv. -/
def memberRow (m : Member) : List String :=
  [toString m.id, m.name, m.email, m.mobile, m.membership, toString m.fee,
    m.imagePath]

/-- The Delete Member branch at the file level (gym.py lines 151-158).
Lines 152-154 filter the members table and save it; line 158 then, when rows
were removed, reads deleted_members.csv with a raw pd.read_csv — unguarded,
unlike load_members and load_attendance — and writes back the concatenation
of the read frame with the removed rows.  When that read raises (the file is
column-less, the very state the program itself writes at startup, gym.py
lines 16-18, and on reset, lines 288-289), the exception aborts the branch
after the members save: the second component carries the raised error, and
the archive file is left unwritten. -/
def delete_member_file (members : List Member) (archiveFile : Frame)
    (did : Nat) : (List Member × Frame) × Option String :=
  let delm := members.filter (fun m => m.id == did)
  let kept := members.filter (fun m => !(m.id == did))
  if delm.isEmpty then ((kept, archiveFile), none)
  else
    match readCsv archiveFile with
    | .error e => ((kept, archiveFile), some e)
    | .ok t => ((kept, ⟨t.cols, t.rows ++ delm.map memberRow⟩), none)

/-- Concrete member used by witnesses and counterexamples. -/
def memA : Member :=
  ⟨1, "Asha", "asha@example.com", "9000000001", "Monthly", 500,
    "member_images/1_Asha.jpg"⟩

/-- Second concrete member used by witnesses. -/
def memB : Member :=
  ⟨2, "Bala", "bala@example.com", "9000000002", "Yearly", 5000,
    "member_images/2_Bala.jpg"⟩

/-- A concrete open attendance record for memA on 2026-10-12. -/
def recOpen : AttRecord :=
  ⟨"1", "Asha", "2026-10-12", "08:00:00", "", "Present"⟩

/-- A concrete closed attendance record for memA on 2026-10-12. -/
def recClosed : AttRecord :=
  ⟨"1", "Asha", "2026-10-12", "08:00:00", "09:30:00", "Exited"⟩

/-- Concrete valid registration inputs used by witnesses. -/
def regA : RegInput :=
  ⟨"Asha", "asha@example.com", "9000000001", "Monthly", 500, some "imgA"⟩

/-- Second concrete valid registration input. -/
def regB : RegInput :=
  ⟨"Bala", "bala@example.com", "9000000002", "Yearly", 5000, some "imgB"⟩

/-- Third concrete valid registration input, with fee 0. -/
def regC : RegInput :=
  ⟨"Chitra", "chitra@example.com", "9000000003", "Quarterly", 0, some "imgC"⟩


/-! ## Properties of the best-match scan -/

theorem minFrom_le_init (l : List ℚ) : ∀ d : ℚ, minFrom d l ≤ d := by
  induction l with
  | nil => intro d; exact le_refl d
  | cons x xs ih =>
      intro d
      exact le_trans (ih (min d x)) (min_le_left d x)

theorem minFrom_le_mem (l : List ℚ) : ∀ d a : ℚ, a ∈ l → minFrom d l ≤ a := by
  induction l with
  | nil => intro d a h; cases h
  | cons x xs ih =>
      intro d a h
      rcases List.mem_cons.mp h with rfl | h2
      · exact le_trans (minFrom_le_init xs (min d a)) (min_le_right d a)
      · exact ih (min d x) a h2

theorem minFrom_eq_of_le (l : List ℚ) :
    ∀ d : ℚ, (∀ a ∈ l, d ≤ a) → minFrom d l = d := by
  induction l with
  | nil => intro d _; rfl
  | cons x xs ih =>
      intro d h
      have hx : min d x = d := min_eq_left (h x (List.mem_cons_self x xs))
      show minFrom (min d x) xs = d
      rw [hx]
      exact ih d fun a ha => h a (List.mem_cons_of_mem x ha)

theorem minFrom_min_comm (l : List ℚ) :
    ∀ c d : ℚ, minFrom (min c d) l = min c (minFrom d l) := by
  induction l with
  | nil => intro c d; rfl
  | cons x xs ih =>
      intro c d
      show minFrom (min (min c d) x) xs = min c (minFrom (min d x) xs)
      rw [min_assoc]
      exact ih c (min d x)

theorem matchedDists_cons_pos {p : Member × VerifyResult}
    (h : p.2.matched = true) (rest : List (Member × VerifyResult)) :
    matchedDists (p :: rest) = p.2.dist :: matchedDists rest := by
  simp [matchedDists, List.filter_cons, h]

theorem matchedDists_cons_neg {p : Member × VerifyResult}
    (h : p.2.matched = false) (rest : List (Member × VerifyResult)) :
    matchedDists (p :: rest) = matchedDists rest := by
  simp [matchedDists, List.filter_cons, h]

theorem mem_matchedDists {l : List (Member × VerifyResult)}
    {p : Member × VerifyResult} (hp : p ∈ l) (hm : p.2.matched = true) :
    p.2.dist ∈ matchedDists l := by
  simp only [matchedDists, List.mem_map, List.mem_filter]
  exact ⟨p, ⟨hp, hm⟩, rfl⟩

theorem scanStep_pos (acc : Option Member × ℚ) (p : Member × VerifyResult)
    (h : p.2.matched = true ∧ p.2.dist < acc.2) :
    scanStep acc p = (some p.1, p.2.dist) := by
  rw [scanStep, if_pos h]

theorem scanStep_neg (acc : Option Member × ℚ) (p : Member × VerifyResult)
    (h : ¬(p.2.matched = true ∧ p.2.dist < acc.2)) :
    scanStep acc p = acc := by
  rw [scanStep, if_neg h]

theorem scan_foldl_noUpdate (l : List (Member × VerifyResult)) :
    ∀ (b : Option Member) (d : ℚ),
      (∀ p ∈ l, p.2.matched = true → d ≤ p.2.dist) →
      l.foldl scanStep (b, d) = (b, d) := by
  induction l with
  | nil => intro b d _; rfl
  | cons p rest ih =>
      intro b d h
      have hp : ¬(p.2.matched = true ∧ p.2.dist < d) := by
        rintro ⟨hm, hlt⟩
        exact absurd hlt (not_lt.mpr (h p (List.mem_cons_self p rest) hm))
      rw [List.foldl_cons, scanStep_neg (b, d) p hp]
      exact ih b d fun q hq => h q (List.mem_cons_of_mem p hq)

theorem scan_foldl_some (l : List (Member × VerifyResult)) :
    ∀ (m : Member) (d : ℚ),
      ∃ m2, (l.foldl scanStep (some m, d)).1 = some m2 := by
  induction l with
  | nil => intro m d; exact ⟨m, rfl⟩
  | cons p rest ih =>
      intro m d
      by_cases h : p.2.matched = true ∧ p.2.dist < d
      · rw [List.foldl_cons, scanStep_pos (some m, d) p h]
        exact ih p.1 p.2.dist
      · rw [List.foldl_cons, scanStep_neg (some m, d) p h]
        exact ih m d

theorem scan_foldl_none_iff (l : List (Member × VerifyResult)) :
    ∀ d : ℚ, (l.foldl scanStep (none, d)).1 = none ↔
      ∀ p ∈ l, ¬(p.2.matched = true ∧ p.2.dist < d) := by
  induction l with
  | nil => intro d; simp
  | cons p rest ih =>
      intro d
      by_cases h : p.2.matched = true ∧ p.2.dist < d
      · rw [List.foldl_cons, scanStep_pos (none, d) p h]
        constructor
        · intro hnone
          obtain ⟨m2, hm2⟩ := scan_foldl_some rest p.1 p.2.dist
          rw [hm2] at hnone
          exact absurd hnone (by simp)
        · intro hall
          exact absurd h (hall p (List.mem_cons_self p rest))
      · rw [List.foldl_cons, scanStep_neg (none, d) p h, ih d]
        constructor
        · intro hr q hq
          rcases List.mem_cons.mp hq with rfl | hq2
          · exact h
          · exact hr q hq2
        · intro hall q hq
          exact hall q (List.mem_cons_of_mem p hq)

theorem scan_foldl_origin (l : List (Member × VerifyResult)) :
    ∀ (b : Option Member) (d : ℚ) (m : Member),
      (l.foldl scanStep (b, d)).1 = some m →
      b = some m ∨ ∃ p ∈ l, p.1 = m ∧ p.2.matched = true ∧ p.2.dist < d := by
  induction l with
  | nil => intro b d m h; exact Or.inl h
  | cons p rest ih =>
      intro b d m h
      by_cases hc : p.2.matched = true ∧ p.2.dist < d
      · rw [List.foldl_cons, scanStep_pos (b, d) p hc] at h
        rcases ih (some p.1) p.2.dist m h with h1 | ⟨q, hq, hq1, hq2, hq3⟩
        · exact Or.inr ⟨p, List.mem_cons_self p rest,
            Option.some.inj h1, hc.1, hc.2⟩
        · exact Or.inr ⟨q, List.mem_cons_of_mem p hq, hq1, hq2,
            lt_trans hq3 hc.2⟩
      · rw [List.foldl_cons, scanStep_neg (b, d) p hc] at h
        rcases ih b d m h with h1 | ⟨q, hq, hq1⟩
        · exact Or.inl h1
        · exact Or.inr ⟨q, List.mem_cons_of_mem p hq, hq1⟩

theorem scan_foldl_find (l : List (Member × VerifyResult)) :
    ∀ (b : Option Member) (d : ℚ),
      (∃ p ∈ l, p.2.matched = true ∧ p.2.dist < d) →
      (l.foldl scanStep (b, d)).1 =
        (l.find? (fun p => p.2.matched &&
          decide (p.2.dist = minFrom d (matchedDists l)))).map Prod.fst := by
  induction l with
  | nil =>
      rintro b d ⟨p, hp, _⟩
      cases hp
  | cons p rest ih =>
      intro b d hex
      by_cases hc : p.2.matched = true ∧ p.2.dist < d
      · have hM : minFrom d (matchedDists (p :: rest)) =
            minFrom p.2.dist (matchedDists rest) := by
          rw [matchedDists_cons_pos hc.1]
          show minFrom (min d p.2.dist) (matchedDists rest) = _
          rw [min_eq_right (le_of_lt hc.2)]
        by_cases hrest : ∃ q ∈ rest, q.2.matched = true ∧ q.2.dist < p.2.dist
        · have hlt : minFrom p.2.dist (matchedDists rest) < p.2.dist := by
            obtain ⟨q, hq, hq1, hq2⟩ := hrest
            exact lt_of_le_of_lt
              (minFrom_le_mem _ _ _ (mem_matchedDists hq hq1)) hq2
          have hne : p.2.dist ≠ minFrom d (matchedDists (p :: rest)) := by
            rw [hM]
            exact ne_of_gt hlt
          have hpredp : ¬((fun p2 => p2.2.matched &&
              decide (p2.2.dist = minFrom d (matchedDists (p :: rest)))) p
                = true) := by
            simp [hne]
          rw [List.foldl_cons, scanStep_pos (b, d) p hc,
            @List.find?_cons_of_neg _ (fun p2 => p2.2.matched &&
              decide (p2.2.dist = minFrom d (matchedDists (p :: rest))))
              p rest hpredp, hM]
          exact ih (some p.1) p.2.dist hrest
        · push_neg at hrest
          have hall : ∀ a ∈ matchedDists rest, p.2.dist ≤ a := by
            intro a ha
            simp only [matchedDists, List.mem_map, List.mem_filter] at ha
            obtain ⟨q, ⟨hq, hqm⟩, rfl⟩ := ha
            exact hrest q hq hqm
          have hMp : minFrom d (matchedDists (p :: rest)) = p.2.dist := by
            rw [hM]
            exact minFrom_eq_of_le _ _ hall
          have hpredp : ((fun p2 => p2.2.matched &&
              decide (p2.2.dist = minFrom d (matchedDists (p :: rest)))) p
                = true) := by
            simp [hc.1, hMp]
          rw [List.foldl_cons, scanStep_pos (b, d) p hc,
            scan_foldl_noUpdate rest (some p.1) p.2.dist hrest,
            @List.find?_cons_of_pos _ (fun p2 => p2.2.matched &&
              decide (p2.2.dist = minFrom d (matchedDists (p :: rest))))
              p rest hpredp]
          rfl
      · have hexr : ∃ q ∈ rest, q.2.matched = true ∧ q.2.dist < d := by
          obtain ⟨q, hq, hq1⟩ := hex
          rcases List.mem_cons.mp hq with rfl | hq2
          · exact absurd hq1 hc
          · exact ⟨q, hq2, hq1⟩
        have hlt2 : minFrom d (matchedDists rest) < d := by
          obtain ⟨q, hq, hq1, hq2⟩ := hexr
          exact lt_of_le_of_lt
            (minFrom_le_mem _ _ _ (mem_matchedDists hq hq1)) hq2
        cases hpm : p.2.matched with
        | false =>
            have hM2 : minFrom d (matchedDists (p :: rest)) =
                minFrom d (matchedDists rest) := by
              rw [matchedDists_cons_neg hpm]
            have hpredp : ¬((fun p2 => p2.2.matched &&
                decide (p2.2.dist = minFrom d (matchedDists (p :: rest)))) p
                  = true) := by
              simp [hpm]
            rw [List.foldl_cons, scanStep_neg (b, d) p hc,
              @List.find?_cons_of_neg _ (fun p2 => p2.2.matched &&
                decide (p2.2.dist = minFrom d (matchedDists (p :: rest))))
                p rest hpredp, hM2]
            exact ih b d hexr
        | true =>
            have hle : d ≤ p.2.dist := by
              by_contra hlt
              exact hc ⟨hpm, lt_of_not_le hlt⟩
            have hM2 : minFrom d (matchedDists (p :: rest)) =
                minFrom d (matchedDists rest) := by
              rw [matchedDists_cons_pos hpm]
              show minFrom (min d p.2.dist) (matchedDists rest) = _
              rw [min_eq_left hle]
            have hne : p.2.dist ≠ minFrom d (matchedDists (p :: rest)) := by
              rw [hM2]
              exact ne_of_gt (lt_of_lt_of_le hlt2 hle)
            have hpredp : ¬((fun p2 => p2.2.matched &&
                decide (p2.2.dist = minFrom d (matchedDists (p :: rest)))) p
                  = true) := by
              simp [hne]
            rw [List.foldl_cons, scanStep_neg (b, d) p hc,
              @List.find?_cons_of_neg _ (fun p2 => p2.2.matched &&
                decide (p2.2.dist = minFrom d (matchedDists (p :: rest))))
                p rest hpredp, hM2]
            exact ih b d hexr

/-! ## Claims about the best-match scan (C1, C2, C9) -/

/-- C1 counterexample: with a single candidate reporting matched = true at
distance exactly 1.0, the claimed selection rule picks that member (its
distance is the minimum among all matched candidates), but the actual scan,
seeded with the 1.0 sentinel and comparing strictly, selects nobody. -/
theorem c1_counterexample :
    (bestMatchScan [(memA, ⟨true, 1⟩)]).1 = none ∧
    specFirstMin [(memA, ⟨true, 1⟩)] = some memA ∧
    (bestMatchScan [(memA, ⟨true, 1⟩)]).1 ≠
      specFirstMin [(memA, ⟨true, 1⟩)] := by
  exact ⟨rfl, rfl, by decide⟩

/-- C1 (amended): for every fixed sequence of per-candidate
(matched, distance) verifier outputs in which at least one candidate reports
matched = true with distance strictly below the 1.0 sentinel, the best-match
scan used by mark_entry and mark_exit selects the first member in enumeration
order whose distance is the minimum among all matched candidates; a candidate
with a distance equal to the current best does not replace it.  (When every
matched candidate is at distance 1.0 or more, the scan selects nobody.) -/
theorem c1_first_min_selection (l : List (Member × VerifyResult))
    (hex : ∃ p ∈ l, p.2.matched = true ∧ p.2.dist < 1) :
    (bestMatchScan l).1 = specFirstMin l := by
  obtain ⟨pw, hpw, hpwm, hpwd⟩ := hex
  have hmem : pw.2.dist ∈ matchedDists l := mem_matchedDists hpw hpwm
  match hmd : matchedDists l with
  | [] =>
      rw [hmd] at hmem
      cases hmem
  | d :: ds =>
      have hminle : minFrom d ds ≤ pw.2.dist := by
        rw [hmd] at hmem
        rcases List.mem_cons.mp hmem with heq | hmem2
        · rw [heq]
          exact minFrom_le_init ds d
        · exact minFrom_le_mem ds d _ hmem2
      have hseed : minFrom 1 (matchedDists l) = minFrom d ds := by
        rw [hmd]
        show minFrom (min 1 d) ds = minFrom d ds
        rw [minFrom_min_comm ds 1 d,
          min_eq_right (le_of_lt (lt_of_le_of_lt hminle hpwd))]
      show (l.foldl scanStep (none, 1)).1 = specFirstMin l
      rw [scan_foldl_find l none 1 ⟨pw, hpw, hpwm, hpwd⟩, hseed]
      simp only [specFirstMin, hmd]

theorem c1_first_min_selection_witness :
    (bestMatchScan [(memA, ⟨true, mkRat 1 2⟩), (memB, ⟨true, mkRat 1 2⟩)]).1 =
      specFirstMin [(memA, ⟨true, mkRat 1 2⟩), (memB, ⟨true, mkRat 1 2⟩)] :=
  c1_first_min_selection _
    ⟨(memA, ⟨true, mkRat 1 2⟩), List.mem_cons_self _ _, rfl, by decide⟩

/-- C2 counterexample: with one member whose verifier output is
(matched = true, distance = 1.0), a member did report matched = true and yet
mark_entry fails with the no-matching-member error instead of proceeding. -/
theorem c2_counterexample :
    (mark_entry [(memA, ⟨true, 1⟩)] [] "2026-10-12" "09:00:00").2 =
      EntryMsg.noMatch ∧
    (memA, (⟨true, 1⟩ : VerifyResult)) ∈
      [(memA, (⟨true, 1⟩ : VerifyResult))] ∧
    (⟨true, 1⟩ : VerifyResult).matched = true :=
  ⟨rfl, List.mem_cons_self _ _, rfl⟩

/-- C2 (amended): for every non-empty member list, mark_entry fails with the
no-matching-member error if and only if no member's verification reports
matched = true with distance strictly below the 1.0 sentinel; whenever at
least one member reports such a match, the best-matching member is taken and
the operation proceeds to the attendance-record step (duplicate check or
record append). -/
theorem c2_no_match_iff (l : List (Member × VerifyResult))
    (att : List AttRecord) (today now : String) (hne : l ≠ []) :
    ((mark_entry l att today now).2 = EntryMsg.noMatch ↔
      ∀ p ∈ l, ¬(p.2.matched = true ∧ p.2.dist < 1)) ∧
    ((∃ p ∈ l, p.2.matched = true ∧ p.2.dist < 1) →
      (mark_entry l att today now).2 = EntryMsg.alreadyMarked ∨
      ∃ nm, (mark_entry l att today now).2 = EntryMsg.marked nm) := by
  have hE : l.isEmpty = false := by
    cases l
    · exact absurd rfl hne
    · rfl
  cases hb : (bestMatchScan l).1 with
  | none =>
      have hiff := (scan_foldl_none_iff l 1).mp hb
      constructor
      · constructor
        · intro _
          exact hiff
        · intro _
          simp [mark_entry, hE, hb]
      · rintro ⟨p, hp, hp1⟩
        exact absurd hp1 (hiff p hp)
  | some m =>
      have hall : ¬ ∀ p ∈ l, ¬(p.2.matched = true ∧ p.2.dist < 1) := by
        intro hforall
        have hn : (l.foldl scanStep (none, 1)).1 = none :=
          (scan_foldl_none_iff l 1).mpr hforall
        have hn2 : (bestMatchScan l).1 = none := hn
        rw [hb] at hn2
        cases hn2
      constructor
      · constructor
        · intro hmsg
          exfalso
          by_cases hdup : (att.filter (fun r => r.id == toString m.id &&
              r.date == today)).isEmpty
          · simp [mark_entry, hE, hb, hdup] at hmsg
          · simp [mark_entry, hE, hb, hdup] at hmsg
        · intro hforall
          exact absurd hforall hall
      · intro _
        by_cases hdup : (att.filter (fun r => r.id == toString m.id &&
            r.date == today)).isEmpty
        · right
          exact ⟨m.name, by simp [mark_entry, hE, hb, hdup]⟩
        · left
          simp [mark_entry, hE, hb, hdup]

theorem c2_no_match_iff_witness :
    (((mark_entry [(memA, ⟨true, 1⟩)] [] "2026-10-12" "09:00:00").2 =
        EntryMsg.noMatch ↔
      ∀ p ∈ [(memA, (⟨true, 1⟩ : VerifyResult))],
        ¬(p.2.matched = true ∧ p.2.dist < 1)) ∧
    ((∃ p ∈ [(memA, (⟨true, 1⟩ : VerifyResult))],
        p.2.matched = true ∧ p.2.dist < 1) →
      (mark_entry [(memA, ⟨true, 1⟩)] [] "2026-10-12" "09:00:00").2 =
        EntryMsg.alreadyMarked ∨
      ∃ nm, (mark_entry [(memA, ⟨true, 1⟩)] [] "2026-10-12" "09:00:00").2 =
        EntryMsg.marked nm)) :=
  c2_no_match_iff [(memA, ⟨true, 1⟩)] [] "2026-10-12" "09:00:00" (by decide)

/-- C9: in the best-match scan of both mark_entry and mark_exit, a candidate
reporting matched = true with distance at least the 1.0 sentinel is never
selected; in particular, when every matched candidate is at distance 1.0 or
more, both operations report that no matching member was found even though
some member reported a match. -/
theorem c9_sentinel_excludes :
    (∀ (l : List (Member × VerifyResult)) (m : Member),
        (bestMatchScan l).1 = some m →
        ∃ p ∈ l, p.1 = m ∧ p.2.matched = true ∧ p.2.dist < 1) ∧
    (∀ (l : List (Member × VerifyResult)) (att : List AttRecord)
        (today now : String), l ≠ [] →
        (∀ p ∈ l, p.2.matched = true → 1 ≤ p.2.dist) →
        mark_entry l att today now = (att, EntryMsg.noMatch) ∧
        mark_exit l att today now = (att, ExitMsg.noMatch)) := by
  constructor
  · intro l m h
    rcases scan_foldl_origin l none 1 m h with h1 | h2
    · cases h1
    · exact h2
  · intro l att today now hne hall
    have hE : l.isEmpty = false := by
      cases l
      · exact absurd rfl hne
      · rfl
    have hb : (bestMatchScan l).1 = none := by
      show (l.foldl scanStep (none, 1)).1 = none
      rw [scan_foldl_noUpdate l none 1 hall]
    constructor
    · simp [mark_entry, hE, hb]
    · simp [mark_exit, hE, hb]

theorem c9_sentinel_excludes_witness :
    (∃ p ∈ [(memA, (⟨true, mkRat 1 2⟩ : VerifyResult))],
        p.1 = memA ∧ p.2.matched = true ∧ p.2.dist < 1) ∧
    mark_entry [(memA, ⟨true, 1⟩)] [] "2026-10-12" "09:00:00" =
      ([], EntryMsg.noMatch) ∧
    mark_exit [(memA, ⟨true, 1⟩)] [] "2026-10-12" "09:00:00" =
      ([], ExitMsg.noMatch) :=
  ⟨c9_sentinel_excludes.1 _ memA rfl,
    (c9_sentinel_excludes.2 _ [] "2026-10-12" "09:00:00"
      (by decide) (by decide)).1,
    (c9_sentinel_excludes.2 _ [] "2026-10-12" "09:00:00"
      (by decide) (by decide)).2⟩

/-! ## Claims about attendance recording (C3, C4) -/

/-- C3: whenever the scan has matched a member and the attendance table
already contains a record with that member's id and today's date, mark_entry
fails with the already-marked warning and returns the attendance table
unchanged: no record is appended and no existing record is modified. -/
theorem c3_duplicate_entry_rejected (l : List (Member × VerifyResult))
    (att : List AttRecord) (today now : String) (m : Member)
    (hscan : (bestMatchScan l).1 = some m) (r : AttRecord) (hr : r ∈ att)
    (hid : r.id = toString m.id) (hdate : r.date = today) :
    mark_entry l att today now = (att, EntryMsg.alreadyMarked) := by
  have hne : l ≠ [] := by
    intro h
    rw [h] at hscan
    cases hscan
  have hE : l.isEmpty = false := by
    cases l
    · exact absurd rfl hne
    · rfl
  have hrf : r ∈ att.filter (fun r2 => r2.id == toString m.id &&
      r2.date == today) :=
    List.mem_filter.mpr ⟨hr, by simp [hid, hdate]⟩
  have hdup : (att.filter (fun r2 => r2.id == toString m.id &&
      r2.date == today)).isEmpty = false := by
    cases hf : att.filter (fun r2 => r2.id == toString m.id &&
        r2.date == today) with
    | nil =>
        rw [hf] at hrf
        cases hrf
    | cons a as => rfl
  simp [mark_entry, hE, hscan, hdup]

theorem c3_duplicate_entry_rejected_witness :
    mark_entry [(memA, ⟨true, mkRat 1 2⟩)] [recOpen] "2026-10-12" "17:00:00" =
      ([recOpen], EntryMsg.alreadyMarked) :=
  c3_duplicate_entry_rejected [(memA, ⟨true, mkRat 1 2⟩)] [recOpen]
    "2026-10-12" "17:00:00" memA rfl recOpen (List.mem_cons_self _ _) rfl rfl

theorem closeFirstOpen_eq_none (idstr today now : String)
    (att : List AttRecord) (h : ∀ r ∈ att, isOpenFor idstr today r = false) :
    closeFirstOpen idstr today now att = none := by
  induction att with
  | nil => rfl
  | cons r rs ih =>
      have hr : isOpenFor idstr today r = false :=
        h r (List.mem_cons_self r rs)
      simp only [closeFirstOpen, hr, Bool.false_eq_true, if_false,
        ih fun q hq => h q (List.mem_cons_of_mem r hq), Option.map_none']

theorem closeFirstOpen_eq_some (idstr today now : String)
    (pre : List AttRecord) (r : AttRecord) (post : List AttRecord)
    (hpre : ∀ q ∈ pre, isOpenFor idstr today q = false)
    (hr : isOpenFor idstr today r = true) :
    closeFirstOpen idstr today now (pre ++ r :: post) =
      some (pre ++ { r with exitTime := now, status := "Exited" } :: post) := by
  induction pre with
  | nil => simp [closeFirstOpen, hr]
  | cons q qs ih =>
      have hq : isOpenFor idstr today q = false :=
        hpre q (List.mem_cons_self q qs)
      simp only [List.cons_append, closeFirstOpen, hq, Bool.false_eq_true,
        if_false, List.append_eq,
        ih fun x hx => hpre x (List.mem_cons_of_mem q hx),
        Option.map_some']

/-- C4: when the scan has matched member m, mark_exit with an attendance table
in which some record for (m, today) is open (empty exit time) mutates exactly
the first such record in table order — setting its ExitTime to the current
time and its Status to Exited — and leaves every earlier and later record, and
every other field of the mutated record, unchanged; when no open record for
(m, today) exists, it fails with the no-open-entry warning and returns the
table unchanged. -/
theorem c4_exit_updates_first_open (l : List (Member × VerifyResult))
    (att : List AttRecord) (today now : String) (m : Member)
    (hscan : (bestMatchScan l).1 = some m) :
    ((∀ r ∈ att, isOpenFor (toString m.id) today r = false) →
      mark_exit l att today now = (att, ExitMsg.noOpenEntry)) ∧
    (∀ (pre : List AttRecord) (r : AttRecord) (post : List AttRecord),
      att = pre ++ r :: post →
      (∀ q ∈ pre, isOpenFor (toString m.id) today q = false) →
      isOpenFor (toString m.id) today r = true →
      mark_exit l att today now =
        (pre ++ { r with exitTime := now, status := "Exited" } :: post,
          ExitMsg.exited m.name)) := by
  have hne : l ≠ [] := by
    intro h
    rw [h] at hscan
    cases hscan
  have hE : l.isEmpty = false := by
    cases l
    · exact absurd rfl hne
    · rfl
  constructor
  · intro hall
    have hclose := closeFirstOpen_eq_none (toString m.id) today now att hall
    simp [mark_exit, hE, hscan, hclose]
  · intro pre r post hsplit hpre hr
    have hclose := closeFirstOpen_eq_some (toString m.id) today now
      pre r post hpre hr
    rw [hsplit]
    simp [mark_exit, hE, hscan, hclose]

theorem c4_exit_updates_first_open_witness :
    mark_exit [(memA, ⟨true, mkRat 1 2⟩)] [recClosed, recOpen]
        "2026-10-12" "18:00:00" =
      ([recClosed, { recOpen with exitTime := "18:00:00", status := "Exited" }], ExitMsg.exited "Asha") ∧
    mark_exit [(memA, ⟨true, mkRat 1 2⟩)] [recClosed]
        "2026-10-12" "18:00:00" =
      ([recClosed], ExitMsg.noOpenEntry) :=
  ⟨(c4_exit_updates_first_open [(memA, ⟨true, mkRat 1 2⟩)]
      [recClosed, recOpen] "2026-10-12" "18:00:00" memA rfl).2
      [recClosed] recOpen [] rfl (by decide) (by decide),
    (c4_exit_updates_first_open [(memA, ⟨true, mkRat 1 2⟩)]
      [recClosed] "2026-10-12" "18:00:00" memA rfl).1 (by decide)⟩

/-! ## Claims about registration, deletion and reset (C5, C6, C7, C8, C10) -/

theorem new_id_eq (ms : List Member) : new_id ms = ms.length + 1 := by
  cases ms with
  | nil => rfl
  | cons a as => rfl

theorem register_seq_aux (inputs : List RegInput) :
    ∀ ms : List Member, (∀ i ∈ inputs, registerValid i = true) →
      (inputs.foldl (fun ms2 i => (register_member ms2 i).1) ms).map
          Member.id =
        ms.map Member.id ++ List.range' (ms.length + 1) inputs.length := by
  induction inputs with
  | nil =>
      intro ms _
      simp
  | cons i rest ih =>
      intro ms h
      have hv : registerValid i = true := h i (List.mem_cons_self i rest)
      have hrest : ∀ j ∈ rest, registerValid j = true :=
        fun j hj => h j (List.mem_cons_of_mem i hj)
      have hstep : (register_member ms i).1 = ms ++
          [⟨new_id ms, i.name, i.email, i.mobile, i.membership, i.fee,
            image_path (new_id ms) i.name⟩] := by
        rw [register_member, if_neg (by simp [hv])]
      rw [List.foldl_cons]
      show (List.foldl (fun ms2 i2 => (register_member ms2 i2).1)
          ((register_member ms i).1) rest).map Member.id = _
      rw [hstep, ih _ hrest]
      simp [new_id_eq, List.range'_succ, Nat.add_assoc]

/-- C5: starting from an empty members table, every sequence of (valid)
registrations with no intervening deletions assigns each new member the id
count(existing members) + 1, so the assigned ids are exactly 1, 2, ...,
strictly increasing by 1 and unique within the live member table. -/
theorem c5_ids_sequential (inputs : List RegInput)
    (h : ∀ i ∈ inputs, registerValid i = true) :
    (register_seq inputs).map Member.id = List.range' 1 inputs.length ∧
    ((register_seq inputs).map Member.id).Nodup ∧
    ∀ (ms : List Member) (i : RegInput), registerValid i = true →
      (register_member ms i).2 = some (ms.length + 1) := by
  have h1 : (register_seq inputs).map Member.id =
      List.range' 1 inputs.length := by
    have h0 := register_seq_aux inputs [] h
    simpa [register_seq] using h0
  refine ⟨h1, ?_, ?_⟩
  · rw [h1]
    exact List.nodup_range' 1 inputs.length
  · intro ms i hv
    simp [register_member, hv, new_id_eq]

theorem c5_ids_sequential_witness :
    (register_seq [regA, regB, regC]).map Member.id = [1, 2, 3] ∧
    ((register_seq [regA, regB, regC]).map Member.id).Nodup ∧
    (register_member [] regA).2 = some 1 := by
  have h := c5_ids_sequential [regA, regB, regC] (by decide)
  refine ⟨?_, h.2.1, h.2.2 [] regA (by decide)⟩
  rw [h.1]
  rfl

/-- C6: the Delete Member branch evaluated at the deleted-members file's
program-built state — the column-less frame written at startup (gym.py lines
16-18) and by reset (lines 288-289), and never given a header by any other
write.  The member is removed from the live table and the members save has
already happened, but the unguarded pd.read_csv of deleted_members.csv at
line 158 raises EmptyDataError before the archive is written, so no record
equal to the member's pre-delete state is ever appended to the archive.  For
contrast, the second conjunct shows the same deletion against an archive file
that does carry the canonical header: there the branch appends exactly one
row equal to the member's pre-delete state, which is the behaviour the spec
describes. -/
theorem c6_delete_crashes_without_archiving :
    (memB ∈ [memA, memB] ∧
      delete_member_file [memA, memB] ⟨[], []⟩ memB.id =
        (([memA], ⟨[], []⟩), some "EmptyDataError")) ∧
    delete_member_file [memA, memB] ⟨membersCols, []⟩ memB.id =
      (([memA], ⟨membersCols, [memberRow memB]⟩), none) :=
  ⟨⟨List.mem_cons_of_mem memA (List.mem_cons_self memB []), rfl⟩, rfl⟩

/-- C7 counterexample: the Reset DB branch overwrites each table file with
`pd.DataFrame().to_csv(...)`, a frame with no columns at all, so the
header/schema of the persisted tables is not preserved: after a reset the
members file and the deleted-members file carry an empty column set instead
of the canonical one. -/
theorem c7_counterexample :
    (resetDB ⟨⟨membersCols, []⟩, ⟨attendanceCols, []⟩, ⟨membersCols, []⟩,
      ["member_images/1_Asha.jpg"]⟩).membersFile.cols ≠ membersCols ∧
    (resetDB ⟨⟨membersCols, []⟩, ⟨attendanceCols, []⟩, ⟨membersCols, []⟩,
      ["member_images/1_Asha.jpg"]⟩).deletedFile.cols ≠ membersCols :=
  ⟨by decide, by decide⟩

/-- C7 (amended): reset() leaves all three tables with no rows and removes
every stored reference photo, but the truncated files carry no header row at
all (an empty column set).  The canonical column set reappears only through
the fallback in load_members / load_attendance on the next read; the
deleted-members file has no such guarded loader, and a direct read of it
after a reset raises instead of yielding an empty table with the canonical
schema. -/
theorem c7_reset_truncates (fs : FileSystem) :
    (resetDB fs).membersFile.rows = [] ∧
    (resetDB fs).attendanceFile.rows = [] ∧
    (resetDB fs).deletedFile.rows = [] ∧
    (resetDB fs).memberImages = [] ∧
    load_members (resetDB fs).membersFile = ⟨membersCols, []⟩ ∧
    load_attendance (resetDB fs).attendanceFile = ⟨attendanceCols, []⟩ ∧
    (resetDB fs).membersFile.cols = [] ∧
    (resetDB fs).attendanceFile.cols = [] ∧
    (resetDB fs).deletedFile.cols = [] ∧
    readCsv (resetDB fs).deletedFile = Except.error "EmptyDataError" :=
  ⟨rfl, rfl, rfl, rfl, rfl, rfl, rfl, rfl, rfl, rfl⟩

/-- C8: the Delete Member branch rewrites only members.csv and
deleted_members.csv; it never touches attendance.csv, so the deleted member's
past attendance records (and everyone else's) remain in the attendance table
after the deletion. -/
theorem c8_delete_preserves_attendance (s : TableStore) (did : Nat) :
    (delete_member_store s did).attendance = s.attendance :=
  rfl

/-- C10: the registration presence check consults only name, email, mobile,
membership and the captured photo — the fee is not part of the check — so
every input with those five present registers successfully and persists a
record even when the fee equals 0. -/
theorem c10_fee_not_validated :
    (∀ (i : RegInput) (f : Nat),
        registerValid { i with fee := f } = registerValid i) ∧
    (∀ (members : List Member) (i : RegInput),
        i.name ≠ "" → i.email ≠ "" → i.mobile ≠ "" → i.membership ≠ "" →
        i.photo.isSome = true → i.fee = 0 →
        register_member members i =
          (members ++ [⟨new_id members, i.name, i.email, i.mobile,
            i.membership, 0, image_path (new_id members) i.name⟩],
            some (new_id members))) := by
  constructor
  · intro i f
    rfl
  · intro members i hn he hm hms hp hf
    have hv : registerValid i = true := by
      simp [registerValid, hn, he, hm, hms, hp]
    rw [register_member, if_neg (by simp [hv]), hf]

theorem c10_fee_not_validated_witness :
    registerValid { regC with fee := 77 } = registerValid regC ∧
    register_member [] regC =
      ([⟨1, "Chitra", "chitra@example.com", "9000000003", "Quarterly", 0,
        image_path 1 "Chitra"⟩], some 1) := by
  refine ⟨c10_fee_not_validated.1 regC 77, ?_⟩
  rw [c10_fee_not_validated.2 [] regC (by decide) (by decide) (by decide)
    (by decide) (by decide) (by decide)]
  rfl
